import Mathlib

/-!
Shallow embedding of the caesium ahead-of-time compiler core
(src/caesium/piler.py): the XMM register allocator, the AST subset the
generator consumes, and the ASMGenerator visitor that lowers a function
body to a list of textual instruction lines.  Python exceptions are
modelled by Except String; the Python dict used_xmm is modelled as an
insertion-ordered association list.
-/

namespace Caesium

/-- Floor of the base-2 logarithm, written with a structural fuel
argument so that the kernel can evaluate it on literals. -/
def log2Aux : Nat → Nat → Nat
  | 0, _ => 0
  | fuel + 1, n => if 2 ≤ n then log2Aux fuel (n / 2) + 1 else 0

/-- Floor of the base-2 logarithm of a positive number. -/
def floorLog2 (n : Nat) : Nat := log2Aux n n

/-- Bit pattern of the IEEE-754 binary64 value nearest to the natural
number n (round to nearest, ties to even), as produced by packing the
number into a C double. -/
def doubleBitsOfNat (n : Nat) : Nat :=
  if n = 0 then 0
  else
    let e := floorLog2 n
    if e ≤ 52 then
      (1023 + e) * 2 ^ 52 + (n * 2 ^ (52 - e) - 2 ^ 52)
    else if e ≥ 1024 then
      0x7FF0000000000000
    else
      let shift := e - 52
      let q := n / 2 ^ shift
      let r := n % 2 ^ shift
      let half := 2 ^ (shift - 1)
      let m := if half < r ∨ (r = half ∧ q % 2 = 1) then q + 1 else q
      if m = 2 ^ 53 then
        if e + 1 ≥ 1024 then 0x7FF0000000000000
        else (1023 + (e + 1)) * 2 ^ 52
      else (1023 + e) * 2 ^ 52 + (m - 2 ^ 52)

/-- Bit pattern of the IEEE-754 binary64 value nearest to the integer v,
modelling the round trip struct.unpack of struct.pack of v as a little
endian double in float_to_hex. -/
def double_bits (v : Int) : Nat :=
  if v < 0 then 2 ^ 63 + doubleBitsOfNat (-v).toNat
  else doubleBitsOfNat v.toNat

/-- Embeds float_to_hex: the hexadecimal rendering (as Python hex) of the
64-bit pattern of the double nearest to v. -/
def float_to_hex (v : Int) : String :=
  "0x" ++ String.mk (Nat.toDigits 16 (double_bits v))

/-- Embeds XMM_REGS: the sixteen xmm register names in fixed order. -/
def XMM_REGS : List String :=
  (List.range 16).map (fun i => "xmm" ++ toString i)

/-- Embeds GENERAL_REGS: the six argument-passing general registers. -/
def GENERAL_REGS : List String := ["rdi", "rsi", "rdx", "rcx", "r8", "r9"]

/-- Embeds the RegisterAllocator state: the list of still-free xmm
registers and the insertion-ordered mapping from symbolic keys to
assigned registers. -/
structure RegisterAllocator where
  free_xmm : List String
  used_xmm : List (String × String)
deriving DecidableEq, Repr

/-- Dictionary lookup on the insertion-ordered association list. -/
def lookupKey : List (String × String) → String → Option String
  | [], _ => none
  | p :: m, k => if p.1 == k then some p.2 else lookupKey m k

/-- Embeds the RegisterAllocator constructor: all sixteen registers free,
empty mapping. -/
def RegisterAllocator.init : RegisterAllocator :=
  { free_xmm := XMM_REGS, used_xmm := [] }

/-- Embeds RegisterAllocator.allocate_xmm: return the register already
bound to the key if any, otherwise pop the head of the free list and
bind it, and raise when the free list is empty. -/
def allocate_xmm (a : RegisterAllocator) (name : String) :
    Except String (String × RegisterAllocator) :=
  match lookupKey a.used_xmm name with
  | some reg => .ok (reg, a)
  | none =>
    match a.free_xmm with
    | [] => .error "Ran out of XMM registers!"
    | reg :: rest =>
      .ok (reg, { free_xmm := rest, used_xmm := a.used_xmm ++ [(name, reg)] })

/-- Embeds RegisterAllocator.free_all: restore the full free list and
clear the mapping. -/
def free_all (_a : RegisterAllocator) : RegisterAllocator :=
  { free_xmm := XMM_REGS, used_xmm := [] }

/-- Binary operator kinds the generator supports (ast.Add, ast.Sub,
ast.Mult, ast.Div). -/
inductive Op
  | add | sub | mult | div
deriving DecidableEq, Repr

/-- Expression nodes the generator can encounter: name references,
numeric literals (restricted here to integer literals), binary
operations, and call nodes (whose callee in the Python AST is a name
node, kept here as its identifier string). -/
inductive Expr
  | name (id : String)
  | const (value : Int)
  | binop (left : Expr) (op : Op) (right : Expr)
  | call (func : String) (args : List Expr)

/-- Statement nodes the generator can encounter: return, the for loop,
and the if statement (which the visitor has no handler for). -/
inductive Stmt
  | ret (value : Expr)
  | forLoop (target : String) (iter : Expr) (body : List Stmt)
  | ifStmt (test : Expr) (body : List Stmt) (orelse : List Stmt)

/-- Embeds the ASMGenerator state: function name, parameter list, the
emitted lines so far, the register allocator, and the loop counter. -/
structure ASMGenerator where
  func_name : String
  args : List String
  lines : List String
  reg_alloc : RegisterAllocator
  loop_count : Nat
deriving DecidableEq, Repr

/-- Embeds the ASMGenerator constructor. -/
def ASMGenerator.init (func_name : String) (args : List String) : ASMGenerator :=
  { func_name := func_name, args := args, lines := [],
    reg_alloc := RegisterAllocator.init, loop_count := 0 }

/-- Appends one emitted line to the generator state. -/
def appendLine (s : ASMGenerator) (l : String) : ASMGenerator :=
  { s with lines := s.lines ++ [l] }

/-- Embeds generate_prologue. -/
def generate_prologue (s : ASMGenerator) : ASMGenerator :=
  { s with lines := s.lines ++
      ["section .text",
       "global " ++ s.func_name,
       s.func_name ++ ":",
       "    ; Function prologue",
       "    push rbp",
       "    mov rbp, rsp",
       "    ; Assume float args in rdi, rsi, rdx, rcx, r8, r9"] }

/-- Embeds generate_epilogue. -/
def generate_epilogue (s : ASMGenerator) : ASMGenerator :=
  { s with lines := s.lines ++
      ["    ; Function epilogue",
       "    pop rbp",
       "    ret"] }

/-- Embeds binop_to_asm for the four supported operators. -/
def binop_to_asm (op : Op) (left right : String) : String :=
  match op with
  | .add => "    addsd " ++ left ++ ", " ++ right ++ "    ; add"
  | .sub => "    subsd " ++ left ++ ", " ++ right ++ "    ; sub"
  | .mult => "    mulsd " ++ left ++ ", " ++ right ++ "    ; mul"
  | .div => "    divsd " ++ left ++ ", " ++ right ++ "    ; div"

/-- Embeds visit_Name: resolve the argument slot index of the name (the
Python list.index and list subscript raise on failure), allocate or
reuse an xmm register keyed by the name, and append the movq load line
unconditionally. -/
def visit_Name (s : ASMGenerator) (id : String) :
    Except String (String × ASMGenerator) :=
  match s.args.findIdx? (fun a => a == id) with
  | none => .error ("ValueError: " ++ id ++ " is not in list")
  | some idx =>
    match GENERAL_REGS.get? idx with
    | none => .error "IndexError: list index out of range"
    | some reg =>
      match allocate_xmm s.reg_alloc id with
      | .error e => .error e
      | .ok (xmm, a) =>
        .ok (xmm, { appendLine s
            ("    movq " ++ xmm ++ ", " ++ reg ++ "    ; Load argument " ++ id)
          with reg_alloc := a })

/-- Embeds visit_Constant: allocate or reuse an xmm register keyed by the
string const_ followed by the literal value, and append the two-line
load-immediate-then-move sequence. -/
def visit_Constant (s : ASMGenerator) (value : Int) :
    Except String (String × ASMGenerator) :=
  match allocate_xmm s.reg_alloc ("const_" ++ toString value) with
  | .error e => .error e
  | .ok (xmm, a) =>
    .ok (xmm, { s with
        reg_alloc := a,
        lines := s.lines ++
          ["    mov rax, " ++ float_to_hex value ++ "    ; Load constant "
              ++ toString value,
           "    movq " ++ xmm ++ ", rax"] })

/-- Embeds evaluate_node: names and constants delegate to their
visitors, a binary operation lowers both operands (the visit_BinOp body
is inlined here), appends the operator line, and then allocates the
register keyed by the string tmp as its result; any other node raises
NotImplementedError. -/
def evaluate_node : ASMGenerator → Expr → Except String (String × ASMGenerator)
  | s, .name id => visit_Name s id
  | s, .const v => visit_Constant s v
  | s, .binop l op r =>
    match evaluate_node s l with
    | .error e => .error e
    | .ok (lreg, s1) =>
      match evaluate_node s1 r with
      | .error e => .error e
      | .ok (rreg, s2) =>
        match allocate_xmm (appendLine s2 (binop_to_asm op lreg rreg)).reg_alloc "tmp" with
        | .error e => .error e
        | .ok (xmm, a) =>
          .ok (xmm, { appendLine s2 (binop_to_asm op lreg rreg) with reg_alloc := a })
  | _, .call _ _ => .error "NotImplementedError: Node not supported"

/-- Embeds visit_BinOp: lower the left then the right operand through
evaluate_node and append the operator line; the visitor result (Python
None) is just the updated state. -/
def visit_BinOp (s : ASMGenerator) (l : Expr) (op : Op) (r : Expr) :
    Except String ASMGenerator :=
  match evaluate_node s l with
  | .error e => .error e
  | .ok (lreg, s1) =>
    match evaluate_node s1 r with
    | .error e => .error e
    | .ok (rreg, s2) => .ok (appendLine s2 (binop_to_asm op lreg rreg))

mutual

/-- Embeds the NodeVisitor dispatch on an expression node: BinOp, Name
and Constant have handlers; a Call node has none, so generic_visit
visits its children, the callee name node first and then each argument. -/
def visit_expr : ASMGenerator → Expr → Except String ASMGenerator
  | s, .name id =>
    match visit_Name s id with
    | .error e => .error e
    | .ok (_, s') => .ok s'
  | s, .const v =>
    match visit_Constant s v with
    | .error e => .error e
    | .ok (_, s') => .ok s'
  | s, .binop l op r => visit_BinOp s l op r
  | s, .call f args =>
    match visit_Name s f with
    | .error e => .error e
    | .ok (_, s') => visit_exprs s' args

/-- Visits a list of expression nodes in order (generic_visit over a
child list). -/
def visit_exprs : ASMGenerator → List Expr → Except String ASMGenerator
  | s, [] => .ok s
  | s, e :: es =>
    match visit_expr s e with
    | .error err => .error err
    | .ok s' => visit_exprs s' es

end

/-- Embeds visit_Return: visit the value expression; the result is
expected in xmm0 by comment alone. -/
def visit_Return (s : ASMGenerator) (value : Expr) : Except String ASMGenerator :=
  visit_expr s value

/-- State of the generator right after the preamble of a range loop:
loop counter bumped, then the begin-loop comment, the counter
initialization (from a parameter name, a literal value, or the
fallback letter n), and the loop label appended, in the order the
visit_For source appends them. -/
def loopPreamble (s0 : ASMGenerator) (range_arg : Expr) : ASMGenerator :=
  appendLine (appendLine (appendLine { s0 with loop_count := s0.loop_count + 1 }
    ("    ; Begin loop " ++ toString (s0.loop_count + 1)))
    ("    mov rcx, " ++ (match range_arg with
      | .name id => id
      | .const v => toString v
      | _ => "n") ++ "    ; loop counter"))
    ("loop_" ++ toString (s0.loop_count + 1) ++ ":")

mutual

/-- Embeds the NodeVisitor dispatch on a statement node: Return and For
have handlers; an If node has none, so generic_visit visits its
children in field order (test, body, orelse) without raising.  The body
of the For handler is inlined in the forLoop case so that the mutual
group recurses structurally; the standalone visit_For below is the same
code. -/
def visit_stmt : ASMGenerator → Stmt → Except String ASMGenerator
  | s, .ret v => visit_Return s v
  | s0, .forLoop _target iter body =>
    match iter with
    | .call f rargs =>
      if f == "range" then
        match rargs with
        | [] => .error "IndexError: list index out of range"
        | range_arg :: _ =>
          match visit_stmts (loopPreamble s0 range_arg) body with
          | .error e => .error e
          | .ok s1 =>
            .ok (appendLine (appendLine (appendLine s1 "    dec rcx")
              ("    jnz loop_" ++ toString (s0.loop_count + 1)))
              ("    ; End loop " ++ toString (s0.loop_count + 1)))
      else
        .ok (appendLine (appendLine { s0 with loop_count := s0.loop_count + 1 }
          ("    ; Begin loop " ++ toString (s0.loop_count + 1)))
          ("    ; End loop " ++ toString (s0.loop_count + 1)))
    | _ =>
      .ok (appendLine (appendLine { s0 with loop_count := s0.loop_count + 1 }
        ("    ; Begin loop " ++ toString (s0.loop_count + 1)))
        ("    ; End loop " ++ toString (s0.loop_count + 1)))
  | s, .ifStmt test body orelse =>
    match visit_expr s test with
    | .error e => .error e
    | .ok s1 =>
      match visit_stmts s1 body with
      | .error e => .error e
      | .ok s2 => visit_stmts s2 orelse

/-- Visits a list of statement nodes in order. -/
def visit_stmts : ASMGenerator → List Stmt → Except String ASMGenerator
  | s, [] => .ok s
  | s, st :: sts =>
    match visit_stmt s st with
    | .error e => .error e
    | .ok s' => visit_stmts s' sts

end

/-- Embeds visit_For: bump the loop counter, append the begin-loop
comment, and when the iterator is a call to range emit the counter
initialization, the label, the lowered body, the decrement and the
conditional branch; in every case append the end-loop comment.  An
iterator that is not a range call leaves only the two comments. -/
def visit_For (s0 : ASMGenerator) (_target : String) (iter : Expr)
    (body : List Stmt) : Except String ASMGenerator :=
  match iter with
  | .call f rargs =>
    if f == "range" then
      match rargs with
      | [] => .error "IndexError: list index out of range"
      | range_arg :: _ =>
        match visit_stmts (loopPreamble s0 range_arg) body with
        | .error e => .error e
        | .ok s1 =>
          .ok (appendLine (appendLine (appendLine s1 "    dec rcx")
            ("    jnz loop_" ++ toString (s0.loop_count + 1)))
            ("    ; End loop " ++ toString (s0.loop_count + 1)))
    else
      .ok (appendLine (appendLine { s0 with loop_count := s0.loop_count + 1 }
        ("    ; Begin loop " ++ toString (s0.loop_count + 1)))
        ("    ; End loop " ++ toString (s0.loop_count + 1)))
  | _ =>
    .ok (appendLine (appendLine { s0 with loop_count := s0.loop_count + 1 }
      ("    ; Begin loop " ++ toString (s0.loop_count + 1)))
      ("    ; End loop " ++ toString (s0.loop_count + 1)))

/-- The statement dispatch on a for node is exactly visit_For. -/
lemma visit_stmt_forLoop (s : ASMGenerator) (target : String) (iter : Expr)
    (body : List Stmt) :
    visit_stmt s (.forLoop target iter body) = visit_For s target iter body := by
  cases iter <;> rfl

mutual

/-- Loop ids assigned while lowering one statement, in assignment
order: every for statement consumes the id loop_count + 1 at the state
where it starts (visit_For bumps the counter first), and a range loop
additionally contains the ids assigned inside its body, which is
lowered from the loop preamble state; an if statement contains the ids
of its branches, threaded through the intermediate states the visitor
produces. -/
def loopIds_stmt : ASMGenerator → Stmt → List Nat
  | _, .ret _ => []
  | s, .forLoop _ iter body =>
    match iter with
    | .call f rargs =>
      if f == "range" then
        match rargs with
        | [] => [s.loop_count + 1]
        | range_arg :: _ =>
          (s.loop_count + 1) :: loopIds_stmts (loopPreamble s range_arg) body
      else [s.loop_count + 1]
    | _ => [s.loop_count + 1]
  | s, .ifStmt test body orelse =>
    match visit_expr s test with
    | .error _ => []
    | .ok s1 =>
      match visit_stmts s1 body with
      | .error _ => loopIds_stmts s1 body
      | .ok s2 => loopIds_stmts s1 body ++ loopIds_stmts s2 orelse

/-- Loop ids assigned while lowering a statement list, in assignment
order. -/
def loopIds_stmts : ASMGenerator → List Stmt → List Nat
  | _, [] => []
  | s, st :: sts =>
    match visit_stmt s st with
    | .error _ => loopIds_stmt s st
    | .ok s' => loopIds_stmt s st ++ loopIds_stmts s' sts

end

/-- Embeds visit_FunctionDef: prologue, the statements in order, then
the epilogue. -/
def visit_FunctionDef (s : ASMGenerator) (body : List Stmt) :
    Except String ASMGenerator :=
  match visit_stmts (generate_prologue s) body with
  | .error e => .error e
  | .ok s' => .ok (generate_epilogue s')

/-- A parsed function definition: name, parameter names, body. -/
structure FunctionDef where
  name : String
  args : List String
  body : List Stmt

/-- Embeds the core of transpile_to_asm: build a fresh generator for the
function and run the visitor over its definition, yielding the ordered
emitted lines. -/
def compile (fd : FunctionDef) : Except String (List String) :=
  match visit_FunctionDef (ASMGenerator.init fd.name fd.args) fd.body with
  | .error e => .error e
  | .ok s => .ok s.lines

/-!
Lemmas about the association-list lookup and the allocator.
-/

lemma lookupKey_mem_values {m : List (String × String)} {k v : String}
    (h : lookupKey m k = some v) : v ∈ m.map Prod.snd := by
  induction m with
  | nil => simp [lookupKey] at h
  | cons p m ih =>
    rw [lookupKey] at h
    by_cases hp : p.1 == k
    · simp [hp] at h
      simp [h]
    · simp [hp] at h
      simp [ih h]

lemma lookupKey_append_of_found {m : List (String × String)} {k v : String}
    (l : List (String × String)) (h : lookupKey m k = some v) :
    lookupKey (m ++ l) k = some v := by
  induction m with
  | nil => simp [lookupKey] at h
  | cons p m ih =>
    rw [lookupKey] at h
    by_cases hp : p.1 == k
    · simp [lookupKey, hp] at h ⊢
      exact h
    · simp [lookupKey, hp] at h ⊢
      exact ih h

lemma lookupKey_append_self {m : List (String × String)} {k : String}
    (r : String) (h : lookupKey m k = none) :
    lookupKey (m ++ [(k, r)]) k = some r := by
  induction m with
  | nil => simp [lookupKey]
  | cons p m ih =>
    rw [lookupKey] at h
    by_cases hp : p.1 == k
    · simp [hp] at h
    · simp [lookupKey, hp] at h ⊢
      exact ih h

lemma lookupKey_append_of_ne {m : List (String × String)} {k k' : String}
    (r : String) (h : lookupKey m k' = none) (hne : k ≠ k') :
    lookupKey (m ++ [(k, r)]) k' = none := by
  induction m with
  | nil => simp [lookupKey, hne]
  | cons p m ih =>
    rw [lookupKey] at h
    by_cases hp : p.1 == k'
    · simp [hp] at h
    · simp [lookupKey, hp] at h ⊢
      exact ih h

lemma lookupKey_ne_of_distinct_keys {m : List (String × String)}
    {k1 k2 v w : String} (h1 : lookupKey m k1 = some v)
    (h2 : lookupKey m k2 = some w) (hk : k1 ≠ k2)
    (hnd : (m.map Prod.snd).Nodup) : v ≠ w := by
  induction m with
  | nil => simp [lookupKey] at h1
  | cons p m ih =>
    rw [lookupKey] at h1 h2
    rw [List.map_cons, List.nodup_cons] at hnd
    by_cases hp1 : p.1 == k1
    · have hp2 : ¬(p.1 == k2) := by
        intro hp2
        exact hk ((eq_of_beq hp1).symm.trans (eq_of_beq hp2))
      simp [hp1] at h1
      simp [hp2] at h2
      intro hvw
      exact hnd.1 (h1 ▸ hvw ▸ lookupKey_mem_values h2)
    · by_cases hp2 : p.1 == k2
      · simp [hp1] at h1
        simp [hp2] at h2
        intro hvw
        exact hnd.1 (h2 ▸ hvw ▸ lookupKey_mem_values h1)
      · simp [hp1] at h1
        simp [hp2] at h2
        exact ih h1 h2 hnd.2

/-- The partition invariant of the register allocator: the free list has
no duplicates, the assigned registers have no duplicates, and no
register is both free and assigned. -/
def AllocatorInv (a : RegisterAllocator) : Prop :=
  a.free_xmm.Nodup ∧ (a.used_xmm.map Prod.snd).Nodup ∧
    ∀ r ∈ a.free_xmm, r ∉ a.used_xmm.map Prod.snd

instance (a : RegisterAllocator) : Decidable (AllocatorInv a) := by
  unfold AllocatorInv
  infer_instance

lemma allocate_xmm_binds {a : RegisterAllocator} {k r : String}
    {a' : RegisterAllocator} (h : allocate_xmm a k = .ok (r, a')) :
    lookupKey a'.used_xmm k = some r := by
  unfold allocate_xmm at h
  cases hl : lookupKey a.used_xmm k with
  | some v =>
    rw [hl] at h
    cases h
    exact hl
  | none =>
    rw [hl] at h
    cases hf : a.free_xmm with
    | nil => rw [hf] at h; cases h
    | cons reg rest =>
      rw [hf] at h
      cases h
      exact lookupKey_append_self r hl

lemma allocate_xmm_preserves_inv {a : RegisterAllocator} {k r : String}
    {a' : RegisterAllocator} (hInv : AllocatorInv a)
    (h : allocate_xmm a k = .ok (r, a')) :
    AllocatorInv a' ∧
      ∀ k' v, lookupKey a.used_xmm k' = some v →
        lookupKey a'.used_xmm k' = some v := by
  obtain ⟨hfnd, hvnd, hdisj⟩ := hInv
  unfold allocate_xmm at h
  cases hl : lookupKey a.used_xmm k with
  | some v =>
    rw [hl] at h
    cases h
    exact ⟨⟨hfnd, hvnd, hdisj⟩, fun _ _ hv => hv⟩
  | none =>
    rw [hl] at h
    cases hf : a.free_xmm with
    | nil => rw [hf] at h; cases h
    | cons reg rest =>
      rw [hf] at h
      cases h
      have hcons := List.nodup_cons.mp (hf ▸ hfnd)
      refine ⟨⟨hcons.2, ?_, ?_⟩, fun k' v hv => lookupKey_append_of_found _ hv⟩
      · rw [List.map_append]
        rw [List.nodup_append]
        refine ⟨hvnd, List.nodup_singleton r, ?_⟩
        intro x hx hxr
        simp at hxr
        exact hdisj r (hf ▸ List.mem_cons_self r rest) (hxr ▸ hx)
      · intro x hx
        rw [List.map_append]
        intro hmem
        rcases List.mem_append.mp hmem with hmem | hmem
        · exact hdisj x (hf ▸ List.mem_cons_of_mem r hx) hmem
        · simp at hmem
          exact hcons.1 (hmem ▸ hx)

/-- Binding monotonicity of a single allocation: an existing key keeps
its register. -/
lemma allocate_xmm_binding_mono {a : RegisterAllocator} {k r : String}
    {a' : RegisterAllocator} (h : allocate_xmm a k = .ok (r, a'))
    {k' v : String} (hv : lookupKey a.used_xmm k' = some v) :
    lookupKey a'.used_xmm k' = some v := by
  unfold allocate_xmm at h
  split at h
  · cases h
    exact hv
  · split at h
    · cases h
    · cases h
      exact lookupKey_append_of_found _ hv

/-- Allocator states reachable from a given state by a finite sequence
of allocate_xmm calls; this is the only way any lowering step of the
generator evolves the allocator. -/
inductive AllocReach : RegisterAllocator → RegisterAllocator → Prop
  | refl (a : RegisterAllocator) : AllocReach a a
  | step {a : RegisterAllocator} (k r : String) {a' b : RegisterAllocator}
      (h : allocate_xmm a k = .ok (r, a')) (hr : AllocReach a' b) :
      AllocReach a b

lemma allocReach_trans {a b c : RegisterAllocator} (h1 : AllocReach a b) :
    AllocReach b c → AllocReach a c := by
  induction h1 with
  | refl a => exact id
  | step k r h hr ih => intro h2; exact .step k r h (ih h2)

lemma allocReach_preserves_binding {a b : RegisterAllocator}
    (h : AllocReach a b) : ∀ k v, lookupKey a.used_xmm k = some v →
    lookupKey b.used_xmm k = some v := by
  induction h with
  | refl a => exact fun _ _ hv => hv
  | step k r hstep hr ih =>
    intro k' v hv
    exact ih k' v (allocate_xmm_binding_mono hstep hv)

lemma allocReach_preserves_inv {a b : RegisterAllocator}
    (h : AllocReach a b) : AllocatorInv a → AllocatorInv b := by
  induction h with
  | refl a => exact id
  | step k r hstep hr ih =>
    intro hInv
    exact ih (allocate_xmm_preserves_inv hInv hstep).1

/-- Two allocations separated by an arbitrary sequence of further
allocations yield the same register exactly when they use the same
key. -/
lemma allocate_pair_reach {a a1 a2 a3 : RegisterAllocator}
    {k1 k2 r1 r2 : String} (hInv : AllocatorInv a)
    (h1 : allocate_xmm a k1 = .ok (r1, a1)) (hr : AllocReach a1 a2)
    (h2 : allocate_xmm a2 k2 = .ok (r2, a3)) :
    r1 = r2 ↔ k1 = k2 := by
  have hb1 : lookupKey a1.used_xmm k1 = some r1 := allocate_xmm_binds h1
  have hb2 : lookupKey a2.used_xmm k1 = some r1 :=
    allocReach_preserves_binding hr k1 r1 hb1
  have hInv2 : AllocatorInv a2 :=
    allocReach_preserves_inv hr (allocate_xmm_preserves_inv hInv h1).1
  constructor
  · intro hreq
    by_contra hk
    unfold allocate_xmm at h2
    cases hl2 : lookupKey a2.used_xmm k2 with
    | some w =>
      rw [hl2] at h2
      cases h2
      exact lookupKey_ne_of_distinct_keys hb2 hl2 hk hInv2.2.1 hreq
    | none =>
      rw [hl2] at h2
      cases hf : a2.free_xmm with
      | nil => rw [hf] at h2; cases h2
      | cons reg rest =>
        rw [hf] at h2
        cases h2
        exact hInv2.2.2 r2 (hf ▸ List.mem_cons_self r2 rest)
          (hreq ▸ lookupKey_mem_values hb2)
  · intro hk
    subst hk
    unfold allocate_xmm at h2
    rw [hb2] at h2
    cases h2
    rfl

/-- Requests a register for each key of the list in turn, modelling a
compilation that needs a register for each of these symbolic keys. -/
def allocateAll (a : RegisterAllocator) : List String → Except String RegisterAllocator
  | [] => .ok a
  | k :: ks =>
    match allocate_xmm a k with
    | .error e => .error e
    | .ok (_, a') => allocateAll a' ks

lemma allocateAll_exhausts : ∀ (keys : List String) (a : RegisterAllocator),
    (∀ k ∈ keys, lookupKey a.used_xmm k = none) → keys.Nodup →
    a.free_xmm.length < keys.length →
    allocateAll a keys = .error "Ran out of XMM registers!" := by
  intro keys
  induction keys with
  | nil => intro a _ _ hlen; simp at hlen
  | cons k ks ih =>
    intro a hfresh hnd hlen
    have hk : lookupKey a.used_xmm k = none := hfresh k (List.mem_cons_self k ks)
    rw [allocateAll]
    unfold allocate_xmm
    rw [hk]
    cases hf : a.free_xmm with
    | nil => rfl
    | cons reg rest =>
      have hnd' := List.nodup_cons.mp hnd
      apply ih
      · intro k' hk'
        refine lookupKey_append_of_ne reg (hfresh k' (List.mem_cons_of_mem k hk')) ?_
        intro hkk
        exact hnd'.1 (hkk ▸ hk')
      · exact hnd'.2
      · have := hf ▸ hlen
        simpa using this

/-!
Lemmas about the loop counter: expression lowering never changes it and
statement lowering never decreases it.
-/

lemma visit_Name_loop_count {s : ASMGenerator} {id r : String}
    {s' : ASMGenerator} (h : visit_Name s id = .ok (r, s')) :
    s'.loop_count = s.loop_count := by
  unfold visit_Name at h
  split at h
  · cases h
  · split at h
    · cases h
    · split at h
      · cases h
      · cases h
        rfl

lemma visit_Constant_loop_count {s : ASMGenerator} {v : Int} {r : String}
    {s' : ASMGenerator} (h : visit_Constant s v = .ok (r, s')) :
    s'.loop_count = s.loop_count := by
  unfold visit_Constant at h
  split at h
  · cases h
  · cases h
    rfl

theorem evaluate_node_loop_count : ∀ (e : Expr) (s : ASMGenerator) (r : String)
    (s' : ASMGenerator), evaluate_node s e = .ok (r, s') →
    s'.loop_count = s.loop_count
  | .name id, s, r, s', h => visit_Name_loop_count h
  | .const v, s, r, s', h => visit_Constant_loop_count h
  | .binop l op rexp, s, r, s', h => by
    rw [evaluate_node] at h
    split at h
    · cases h
    · split at h
      · cases h
      · split at h
        · cases h
        · rename_i x1 lreg s1 hp x2 rreg s2 hq x3 xmm a ha
          cases h
          have h2 := evaluate_node_loop_count rexp s1 rreg s2 hq
          have h1 := evaluate_node_loop_count l s lreg s1 hp
          exact h2.trans h1
  | .call f args, s, r, s', h => by
    rw [evaluate_node] at h
    cases h

lemma visit_BinOp_loop_count {s : ASMGenerator} {l : Expr} {op : Op}
    {r : Expr} {s' : ASMGenerator} (h : visit_BinOp s l op r = .ok s') :
    s'.loop_count = s.loop_count := by
  unfold visit_BinOp at h
  split at h
  · cases h
  · split at h
    · cases h
    · rename_i x1 lreg s1 hp x2 rreg s2 hq
      cases h
      have h2 := evaluate_node_loop_count r s1 rreg s2 hq
      have h1 := evaluate_node_loop_count l s lreg s1 hp
      exact h2.trans h1

mutual

theorem visit_expr_loop_count : ∀ (e : Expr) (s s' : ASMGenerator),
    visit_expr s e = .ok s' → s'.loop_count = s.loop_count
  | .name id, s, s', h => by
    rw [visit_expr] at h
    split at h
    · cases h
    · rename_i x1 r1 s1 hp
      cases h
      exact visit_Name_loop_count hp
  | .const v, s, s', h => by
    rw [visit_expr] at h
    split at h
    · cases h
    · rename_i x1 r1 s1 hp
      cases h
      exact visit_Constant_loop_count hp
  | .binop l op r, s, s', h => by
    rw [visit_expr] at h
    exact visit_BinOp_loop_count h
  | .call f args, s, s', h => by
    rw [visit_expr] at h
    split at h
    · cases h
    · rename_i x1 r1 s1 hp
      exact (visit_exprs_loop_count args s1 s' h).trans
        (visit_Name_loop_count hp)

theorem visit_exprs_loop_count : ∀ (es : List Expr) (s s' : ASMGenerator),
    visit_exprs s es = .ok s' → s'.loop_count = s.loop_count
  | [], s, s', h => by
    rw [visit_exprs] at h
    cases h
    rfl
  | e :: es, s, s', h => by
    rw [visit_exprs] at h
    split at h
    · cases h
    · rename_i s1 h1
      exact (visit_exprs_loop_count es s1 s' h).trans
        (visit_expr_loop_count e s s1 h1)

end

mutual

theorem visit_stmt_loop_count_le : ∀ (st : Stmt) (s s' : ASMGenerator),
    visit_stmt s st = .ok s' → s.loop_count ≤ s'.loop_count
  | .ret v, s, s', h => by
    rw [visit_stmt] at h
    exact Nat.le_of_eq (visit_expr_loop_count v s s' h).symm
  | .forLoop target iter body, s, s', h => by
    cases iter with
    | name id =>
      rw [visit_stmt.eq_def] at h
      dsimp only at h
      cases h
      exact Nat.le_succ _
    | const v =>
      rw [visit_stmt.eq_def] at h
      dsimp only at h
      cases h
      exact Nat.le_succ _
    | binop l op r =>
      rw [visit_stmt.eq_def] at h
      dsimp only at h
      cases h
      exact Nat.le_succ _
    | call f rargs =>
      rw [visit_stmt.eq_def] at h
      dsimp only at h
      split at h
      · split at h
        · cases h
        · split at h
          · cases h
          · rename_i range_arg rest x1 s1 h1
            cases h
            have hle := visit_stmts_loop_count_le body _ _ h1
            exact Nat.le_trans (Nat.le_succ s.loop_count) hle
      · cases h
        exact Nat.le_succ _
  | .ifStmt test body orelse, s, s', h => by
    rw [visit_stmt] at h
    split at h
    · cases h
    · rename_i s1 h1
      split at h
      · cases h
      · rename_i s2 h2
        calc s.loop_count
            = s1.loop_count := (visit_expr_loop_count test s s1 h1).symm
          _ ≤ s2.loop_count := visit_stmts_loop_count_le body s1 s2 h2
          _ ≤ s'.loop_count := visit_stmts_loop_count_le orelse s2 s' h

theorem visit_stmts_loop_count_le : ∀ (sts : List Stmt) (s s' : ASMGenerator),
    visit_stmts s sts = .ok s' → s.loop_count ≤ s'.loop_count
  | [], s, s', h => by
    rw [visit_stmts] at h
    cases h
    exact Nat.le_refl _
  | st :: sts, s, s', h => by
    rw [visit_stmts] at h
    split at h
    · cases h
    · rename_i s1 h1
      exact Nat.le_trans (visit_stmt_loop_count_le st s s1 h1)
        (visit_stmts_loop_count_le sts s1 s' h)

end

theorem visit_For_loop_count_lt (target : String) (iter : Expr)
    (body : List Stmt) (s s' : ASMGenerator)
    (h : visit_For s target iter body = .ok s') :
    s.loop_count < s'.loop_count := by
  cases iter with
  | name id =>
    rw [visit_For.eq_def] at h
    dsimp only at h
    cases h
    exact Nat.lt_succ_self _
  | const v =>
    rw [visit_For.eq_def] at h
    dsimp only at h
    cases h
    exact Nat.lt_succ_self _
  | binop l op r =>
    rw [visit_For.eq_def] at h
    dsimp only at h
    cases h
    exact Nat.lt_succ_self _
  | call f rargs =>
    rw [visit_For.eq_def] at h
    dsimp only at h
    split at h
    · split at h
      · cases h
      · split at h
        · cases h
        · rename_i range_arg rest x1 s1 h1
          cases h
          have hle := visit_stmts_loop_count_le body _ _ h1
          exact Nat.lt_of_lt_of_le (Nat.lt_succ_self s.loop_count) hle
    · cases h
      exact Nat.lt_succ_self _

/-!
Lemmas showing that every lowering step evolves the allocator only
along AllocReach, a finite chain of allocate_xmm calls.
-/

lemma visit_Name_reach {s : ASMGenerator} {id r : String}
    {s' : ASMGenerator} (h : visit_Name s id = .ok (r, s')) :
    AllocReach s.reg_alloc s'.reg_alloc := by
  unfold visit_Name at h
  split at h
  · cases h
  · split at h
    · cases h
    · split at h
      · cases h
      · rename_i x1 xmm a ha
        cases h
        exact .step id r ha (.refl a)

lemma visit_Constant_reach {s : ASMGenerator} {v : Int} {r : String}
    {s' : ASMGenerator} (h : visit_Constant s v = .ok (r, s')) :
    AllocReach s.reg_alloc s'.reg_alloc := by
  unfold visit_Constant at h
  split at h
  · cases h
  · rename_i x1 xmm a ha
    cases h
    exact .step _ r ha (.refl a)

theorem evaluate_node_reach : ∀ (e : Expr) (s : ASMGenerator) (r : String)
    (s' : ASMGenerator), evaluate_node s e = .ok (r, s') →
    AllocReach s.reg_alloc s'.reg_alloc
  | .name id, s, r, s', h => visit_Name_reach h
  | .const v, s, r, s', h => visit_Constant_reach h
  | .binop l op rexp, s, r, s', h => by
    rw [evaluate_node] at h
    split at h
    · cases h
    · split at h
      · cases h
      · split at h
        · cases h
        · rename_i x1 lreg s1 hp x2 rreg s2 hq x3 xmm a ha
          cases h
          refine allocReach_trans (evaluate_node_reach l s lreg s1 hp)
            (allocReach_trans (evaluate_node_reach rexp s1 rreg s2 hq) ?_)
          exact .step _ r ha (.refl a)
  | .call f args, s, r, s', h => by
    rw [evaluate_node] at h
    cases h

lemma visit_BinOp_reach {s : ASMGenerator} {l : Expr} {op : Op} {r : Expr}
    {s' : ASMGenerator} (h : visit_BinOp s l op r = .ok s') :
    AllocReach s.reg_alloc s'.reg_alloc := by
  unfold visit_BinOp at h
  split at h
  · cases h
  · split at h
    · cases h
    · rename_i x1 lreg s1 hp x2 rreg s2 hq
      cases h
      exact allocReach_trans (evaluate_node_reach l s lreg s1 hp)
        (evaluate_node_reach r s1 rreg s2 hq)

mutual

theorem visit_expr_reach : ∀ (e : Expr) (s s' : ASMGenerator),
    visit_expr s e = .ok s' → AllocReach s.reg_alloc s'.reg_alloc
  | .name id, s, s', h => by
    rw [visit_expr] at h
    split at h
    · cases h
    · rename_i x1 r1 s1 hp
      cases h
      exact visit_Name_reach hp
  | .const v, s, s', h => by
    rw [visit_expr] at h
    split at h
    · cases h
    · rename_i x1 r1 s1 hp
      cases h
      exact visit_Constant_reach hp
  | .binop l op r, s, s', h => by
    rw [visit_expr] at h
    exact visit_BinOp_reach h
  | .call f args, s, s', h => by
    rw [visit_expr] at h
    split at h
    · cases h
    · rename_i x1 r1 s1 hp
      exact allocReach_trans (visit_Name_reach hp)
        (visit_exprs_reach args s1 s' h)

theorem visit_exprs_reach : ∀ (es : List Expr) (s s' : ASMGenerator),
    visit_exprs s es = .ok s' → AllocReach s.reg_alloc s'.reg_alloc
  | [], s, s', h => by
    rw [visit_exprs] at h
    cases h
    exact .refl _
  | e :: es, s, s', h => by
    rw [visit_exprs] at h
    split at h
    · cases h
    · rename_i s1 h1
      exact allocReach_trans (visit_expr_reach e s s1 h1)
        (visit_exprs_reach es s1 s' h)

end

mutual

theorem visit_stmt_reach : ∀ (st : Stmt) (s s' : ASMGenerator),
    visit_stmt s st = .ok s' → AllocReach s.reg_alloc s'.reg_alloc
  | .ret v, s, s', h => by
    rw [visit_stmt] at h
    exact visit_expr_reach v s s' h
  | .forLoop target iter body, s, s', h => by
    cases iter with
    | name id =>
      rw [visit_stmt.eq_def] at h
      dsimp only at h
      cases h
      exact .refl _
    | const v =>
      rw [visit_stmt.eq_def] at h
      dsimp only at h
      cases h
      exact .refl _
    | binop l op r =>
      rw [visit_stmt.eq_def] at h
      dsimp only at h
      cases h
      exact .refl _
    | call f rargs =>
      rw [visit_stmt.eq_def] at h
      dsimp only at h
      split at h
      · split at h
        · cases h
        · split at h
          · cases h
          · rename_i range_arg rest x1 s1 h1
            cases h
            exact visit_stmts_reach body (loopPreamble s range_arg) s1 h1
      · cases h
        exact .refl _
  | .ifStmt test body orelse, s, s', h => by
    rw [visit_stmt] at h
    split at h
    · cases h
    · rename_i s1 h1
      split at h
      · cases h
      · rename_i s2 h2
        exact allocReach_trans (visit_expr_reach test s s1 h1)
          (allocReach_trans (visit_stmts_reach body s1 s2 h2)
            (visit_stmts_reach orelse s2 s' h))

theorem visit_stmts_reach : ∀ (sts : List Stmt) (s s' : ASMGenerator),
    visit_stmts s sts = .ok s' → AllocReach s.reg_alloc s'.reg_alloc
  | [], s, s', h => by
    rw [visit_stmts] at h
    cases h
    exact .refl _
  | st :: sts, s, s', h => by
    rw [visit_stmts] at h
    split at h
    · cases h
    · rename_i s1 h1
      exact allocReach_trans (visit_stmt_reach st s s1 h1)
        (visit_stmts_reach sts s1 s' h)

end


/-!
Bounds and distinctness of the assigned loop ids: every id assigned
during a successful lowering lies strictly above the starting loop
count and at most at the final loop count, and the ids of one lowering
are pairwise distinct, whether the loops are siblings, separated by
other statements, nested, or split across if branches.
-/

mutual

theorem loopIds_stmt_bounds : ∀ (st : Stmt) (s s' : ASMGenerator),
    visit_stmt s st = .ok s' → ∀ i ∈ loopIds_stmt s st,
    s.loop_count < i ∧ i ≤ s'.loop_count
  | .ret v, s, s', h => by
    intro i hi
    rw [loopIds_stmt] at hi
    cases hi
  | .forLoop target iter body, s, s', h => by
    rw [visit_stmt_forLoop] at h
    intro i hi
    cases iter with
    | name id =>
      rw [loopIds_stmt.eq_def] at hi
      dsimp only at hi
      have hlt := visit_For_loop_count_lt target (.name id) body s s' h
      simp at hi
      subst hi
      exact ⟨Nat.lt_succ_self _, hlt⟩
    | const v =>
      rw [loopIds_stmt.eq_def] at hi
      dsimp only at hi
      have hlt := visit_For_loop_count_lt target (.const v) body s s' h
      simp at hi
      subst hi
      exact ⟨Nat.lt_succ_self _, hlt⟩
    | binop l op r =>
      rw [loopIds_stmt.eq_def] at hi
      dsimp only at hi
      have hlt := visit_For_loop_count_lt target (.binop l op r) body s s' h
      simp at hi
      subst hi
      exact ⟨Nat.lt_succ_self _, hlt⟩
    | call f rargs =>
      rw [loopIds_stmt.eq_def] at hi
      dsimp only at hi
      by_cases hf : (f == "range") = true
      · rw [if_pos hf] at hi
        cases rargs with
        | nil =>
          have hlt := visit_For_loop_count_lt target (.call f []) body s s' h
          simp at hi
          subst hi
          exact ⟨Nat.lt_succ_self _, hlt⟩
        | cons ra rest =>
          rw [visit_For.eq_def] at h
          dsimp only at h
          rw [if_pos hf] at h
          split at h
          · cases h
          · rename_i sb hb
            cases h
            rcases List.mem_cons.mp hi with hi | hi
            · subst hi
              exact ⟨Nat.lt_succ_self _,
                visit_stmts_loop_count_le body _ _ hb⟩
            · have hbd := loopIds_stmts_bounds body _ _ hb i hi
              exact ⟨Nat.lt_trans (Nat.lt_succ_self _) hbd.1, hbd.2⟩
      · rw [if_neg hf] at hi
        have hlt := visit_For_loop_count_lt target (.call f rargs) body s s' h
        simp at hi
        subst hi
        exact ⟨Nat.lt_succ_self _, hlt⟩
  | .ifStmt test body orelse, s, s', h => by
    intro i hi
    rw [visit_stmt] at h
    rw [loopIds_stmt] at hi
    split at h
    · cases h
    · rename_i s1 h1
      rw [h1] at hi
      dsimp only at hi
      split at h
      · cases h
      · rename_i s2 h2
        rw [h2] at hi
        dsimp only at hi
        have he := visit_expr_loop_count test s s1 h1
        rcases List.mem_append.mp hi with hi | hi
        · have hb := loopIds_stmts_bounds body s1 s2 h2 i hi
          exact ⟨he ▸ hb.1,
            Nat.le_trans hb.2 (visit_stmts_loop_count_le orelse s2 s' h)⟩
        · have hb := loopIds_stmts_bounds orelse s2 s' h i hi
          refine ⟨?_, hb.2⟩
          calc s.loop_count = s1.loop_count := he.symm
            _ ≤ s2.loop_count := visit_stmts_loop_count_le body s1 s2 h2
            _ < i := hb.1

theorem loopIds_stmts_bounds : ∀ (sts : List Stmt) (s s' : ASMGenerator),
    visit_stmts s sts = .ok s' → ∀ i ∈ loopIds_stmts s sts,
    s.loop_count < i ∧ i ≤ s'.loop_count
  | [], s, s', h => by
    intro i hi
    rw [loopIds_stmts] at hi
    cases hi
  | st :: sts, s, s', h => by
    intro i hi
    rw [visit_stmts] at h
    rw [loopIds_stmts] at hi
    split at h
    · cases h
    · rename_i s1 h1
      rw [h1] at hi
      dsimp only at hi
      rcases List.mem_append.mp hi with hi | hi
      · have hb := loopIds_stmt_bounds st s s1 h1 i hi
        exact ⟨hb.1,
          Nat.le_trans hb.2 (visit_stmts_loop_count_le sts s1 s' h)⟩
      · have hb := loopIds_stmts_bounds sts s1 s' h i hi
        exact ⟨Nat.lt_of_le_of_lt (visit_stmt_loop_count_le st s s1 h1) hb.1,
          hb.2⟩

end

mutual

theorem loopIds_stmt_nodup : ∀ (st : Stmt) (s s' : ASMGenerator),
    visit_stmt s st = .ok s' → (loopIds_stmt s st).Nodup
  | .ret v, s, s', h => by
    rw [loopIds_stmt]
    exact List.nodup_nil
  | .forLoop target iter body, s, s', h => by
    rw [visit_stmt_forLoop] at h
    cases iter with
    | name id =>
      rw [loopIds_stmt.eq_def]
      dsimp only
      exact List.nodup_singleton _
    | const v =>
      rw [loopIds_stmt.eq_def]
      dsimp only
      exact List.nodup_singleton _
    | binop l op r =>
      rw [loopIds_stmt.eq_def]
      dsimp only
      exact List.nodup_singleton _
    | call f rargs =>
      rw [loopIds_stmt.eq_def]
      dsimp only
      by_cases hf : (f == "range") = true
      · rw [if_pos hf]
        cases rargs with
        | nil => exact List.nodup_singleton _
        | cons ra rest =>
          rw [visit_For.eq_def] at h
          dsimp only at h
          rw [if_pos hf] at h
          split at h
          · cases h
          · rename_i sb hb
            refine List.nodup_cons.mpr
              ⟨?_, loopIds_stmts_nodup body _ _ hb⟩
            intro hmem
            have hbd := loopIds_stmts_bounds body _ _ hb _ hmem
            exact absurd hbd.1 (Nat.lt_irrefl _)
      · rw [if_neg hf]
        exact List.nodup_singleton _
  | .ifStmt test body orelse, s, s', h => by
    rw [visit_stmt] at h
    rw [loopIds_stmt]
    split at h
    · cases h
    · rename_i s1 h1
      split at h
      · cases h
      · rename_i s2 h2
        rw [List.nodup_append]
        refine ⟨loopIds_stmts_nodup body s1 s2 h2,
          loopIds_stmts_nodup orelse s2 s' h, ?_⟩
        intro i hi hj
        have hb := loopIds_stmts_bounds body s1 s2 h2 i hi
        have ho := loopIds_stmts_bounds orelse s2 s' h i hj
        omega

theorem loopIds_stmts_nodup : ∀ (sts : List Stmt) (s s' : ASMGenerator),
    visit_stmts s sts = .ok s' → (loopIds_stmts s sts).Nodup
  | [], s, s', h => by
    rw [loopIds_stmts]
    exact List.nodup_nil
  | st :: sts, s, s', h => by
    rw [visit_stmts] at h
    rw [loopIds_stmts]
    split at h
    · cases h
    · rename_i s1 h1
      rw [List.nodup_append]
      refine ⟨loopIds_stmt_nodup st s s1 h1,
        loopIds_stmts_nodup sts s1 s' h, ?_⟩
      intro i hi hj
      have hb := loopIds_stmt_bounds st s s1 h1 i hi
      have ho := loopIds_stmts_bounds sts s1 s' h i hj
      omega

end

/-!
Claim theorems.
-/

/-- C10: with a fresh register pool, the first allocation, whatever key
is requested first, returns xmm0, the head of the fixed register
sequence and the designated return-value register. -/
theorem first_allocation_from_fresh_pool_is_xmm0 :
    (∀ k : String, (allocate_xmm RegisterAllocator.init k).map Prod.fst =
      .ok "xmm0") ∧ XMM_REGS.head? = some "xmm0" := by
  constructor
  · intro k
    rfl
  · rfl

/-- C9: lowering a for statement whose iterator is not a call node
appends only the begin-loop and end-loop comment lines, skips the body
entirely, and raises no error. -/
theorem visit_For_non_call_iter_emits_only_comments (s : ASMGenerator)
    (target : String) (iter : Expr) (body : List Stmt)
    (h : ∀ f args, iter ≠ .call f args) :
    visit_For s target iter body =
      .ok (appendLine (appendLine { s with loop_count := s.loop_count + 1 }
        ("    ; Begin loop " ++ toString (s.loop_count + 1)))
        ("    ; End loop " ++ toString (s.loop_count + 1))) := by
  cases iter with
  | call f args => exact absurd rfl (h f args)
  | name id => rw [visit_For.eq_def]
  | const v => rw [visit_For.eq_def]
  | binop l op r => rw [visit_For.eq_def]

/-- Witness for C9 at a concrete input: the loop over a plain name
iterator emits exactly the two comment lines. -/
theorem visit_For_non_call_iter_witness :
    (visit_For (ASMGenerator.init "f" []) "i" (.name "xs") []).map
      (fun g => g.lines) = .ok ["    ; Begin loop 1", "    ; End loop 1"] := by
  rw [visit_For_non_call_iter_emits_only_comments (ASMGenerator.init "f" [])
    "i" (.name "xs") [] (fun f args hc => nomatch hc)]
  rfl

/-- C8: lowering is a function of the function definition alone; two
generator instances both freshly constructed for the same definition
produce identical instruction streams. -/
theorem compile_deterministic (fd : FunctionDef) (g1 g2 : ASMGenerator)
    (h1 : g1 = ASMGenerator.init fd.name fd.args)
    (h2 : g2 = ASMGenerator.init fd.name fd.args) :
    visit_FunctionDef g1 fd.body = visit_FunctionDef g2 fd.body := by
  subst h1
  subst h2
  rfl

/-- Witness for C8 at a concrete function definition. -/
theorem compile_deterministic_witness :
    visit_FunctionDef (ASMGenerator.init "f" ["a"]) [.ret (.name "a")] =
      visit_FunctionDef (ASMGenerator.init "f" ["a"]) [.ret (.name "a")] :=
  compile_deterministic { name := "f", args := ["a"], body := [.ret (.name "a")] }
    _ _ rfl rfl

/-- C7: allocation preserves the register partition invariant and never
removes a mapping entry, and the reset operation and the initial state
satisfy the invariant. -/
theorem allocator_partition_invariant :
    (∀ (a : RegisterAllocator) (k r : String) (a' : RegisterAllocator),
      AllocatorInv a → allocate_xmm a k = .ok (r, a') →
      AllocatorInv a' ∧ ∀ k' v, lookupKey a.used_xmm k' = some v →
        lookupKey a'.used_xmm k' = some v)
    ∧ (∀ a : RegisterAllocator, AllocatorInv (free_all a))
    ∧ AllocatorInv RegisterAllocator.init := by
  refine ⟨fun a k r a' hInv h => allocate_xmm_preserves_inv hInv h, fun a => ?_, ?_⟩
  · show AllocatorInv { free_xmm := XMM_REGS, used_xmm := [] }
    decide
  · decide

/-- Witness for C7: the state reached by one allocation from the fresh
pool satisfies the partition invariant. -/
theorem allocator_partition_invariant_witness :
    AllocatorInv { free_xmm := XMM_REGS.drop 1, used_xmm := [("a", "xmm0")] } :=
  (allocator_partition_invariant.1 RegisterAllocator.init "a" "xmm0"
    { free_xmm := XMM_REGS.drop 1, used_xmm := [("a", "xmm0")] }
    (by decide) (by rfl)).1

/-- C6: allocation fails, with the pool-exhausted error, exactly when
the key is unbound and the free sequence is empty; consequently any
sequence of more than sixteen distinct fresh keys exhausts the fresh
pool and fails with that error. -/
theorem allocate_fails_iff_pool_exhausted :
    (∀ (a : RegisterAllocator) (k : String),
      allocate_xmm a k = .error "Ran out of XMM registers!" ↔
        lookupKey a.used_xmm k = none ∧ a.free_xmm = [])
    ∧ (∀ keys : List String, keys.Nodup → 16 < keys.length →
      allocateAll RegisterAllocator.init keys =
        .error "Ran out of XMM registers!") := by
  constructor
  · intro a k
    constructor
    · intro h
      unfold allocate_xmm at h
      cases hl : lookupKey a.used_xmm k with
      | some v => rw [hl] at h; cases h
      | none =>
        rw [hl] at h
        cases hf : a.free_xmm with
        | nil => exact ⟨rfl, rfl⟩
        | cons reg rest => rw [hf] at h; cases h
    · intro hc
      obtain ⟨hl, hf⟩ := hc
      rw [allocate_xmm, hl, hf]
  · intro keys hnd hlen
    apply allocateAll_exhausts
    · intro k hk
      rfl
    · exact hnd
    · have h16 : (RegisterAllocator.init).free_xmm.length = 16 := by rfl
      rw [h16]
      exact hlen

/-- Witness for C6: seventeen distinct keys exhaust the fresh pool. -/
theorem allocate_fails_iff_pool_exhausted_witness :
    allocateAll RegisterAllocator.init
      ["k0", "k1", "k2", "k3", "k4", "k5", "k6", "k7", "k8", "k9", "k10",
       "k11", "k12", "k13", "k14", "k15", "k16"] =
      .error "Ran out of XMM registers!" :=
  allocate_fails_iff_pool_exhausted.2 _ (by decide) (by decide)


/-- C1 counterexample: two sibling binary operations in one compilation
both return register xmm2, because evaluate_node keys every binary
temporary by the single string tmp rather than a per-node key. -/
theorem sibling_binop_temporaries_collide :
    ((evaluate_node (ASMGenerator.init "f" ["a", "b", "c", "d"])
      (.binop (.name "a") .add (.name "b"))).map Prod.fst = .ok "xmm2")
    ∧ (((evaluate_node (ASMGenerator.init "f" ["a", "b", "c", "d"])
      (.binop (.name "a") .add (.name "b"))).bind
        (fun p => evaluate_node p.2 (.binop (.name "c") .add (.name "d")))).map
          Prod.fst = .ok "xmm2") := by
  exact ⟨rfl, rfl⟩

/-- C1 (amended): evaluate_node on a binary operation returns the
register bound to the fixed key tmp in the resulting allocator state, so
the first lowered binary operation allocates one temporary register and
every later binary operation in the same compilation returns that same
register. -/
theorem evaluate_node_binop_returns_the_tmp_binding (s : ASMGenerator)
    (l : Expr) (op : Op) (r : Expr) (reg : String) (s' : ASMGenerator)
    (h : evaluate_node s (.binop l op r) = .ok (reg, s')) :
    lookupKey s'.reg_alloc.used_xmm "tmp" = some reg := by
  rw [evaluate_node] at h
  split at h
  · cases h
  · split at h
    · cases h
    · split at h
      · cases h
      · rename_i x1 lreg s1 hp x2 rreg s2 hq x3 xmm a ha
        cases h
        exact allocate_xmm_binds ha

/-- Witness for the amended C1 at a concrete binary operation. -/
theorem evaluate_node_binop_returns_the_tmp_binding_witness :
    lookupKey [("a", "xmm0"), ("b", "xmm1"), ("tmp", "xmm2")] "tmp" =
      some "xmm2" :=
  evaluate_node_binop_returns_the_tmp_binding (ASMGenerator.init "f" ["a", "b"])
    (.name "a") .add (.name "b") "xmm2"
    ⟨"f", ["a", "b"],
      ["    movq xmm0, rdi    ; Load argument a",
       "    movq xmm1, rsi    ; Load argument b",
       "    addsd xmm0, xmm1    ; add"],
      ⟨XMM_REGS.drop 3, [("a", "xmm0"), ("b", "xmm1"), ("tmp", "xmm2")]⟩, 0⟩
    (by rfl)

/-- C2 counterexample: a function body consisting of an if statement
compiles without any error and emits instructions for the test and the
branch bodies. -/
theorem if_statement_compiles_without_error :
    compile ⟨"f", ["a", "b"], [.ifStmt (.name "a") [.ret (.name "b")] []]⟩ =
      .ok ["section .text", "global f", "f:", "    ; Function prologue",
        "    push rbp", "    mov rbp, rsp",
        "    ; Assume float args in rdi, rsi, rdx, rcx, r8, r9",
        "    movq xmm0, rdi    ; Load argument a",
        "    movq xmm1, rsi    ; Load argument b",
        "    ; Function epilogue", "    pop rbp", "    ret"] := by
  rfl

/-- C2 (amended): the visitor has no handler for an if statement, so the
generic traversal lowers the test expression and then the statements of
both branches in order; whenever those lower successfully the whole
statement lowers successfully to their combined output, and no
unsupported-statement failure exists. -/
theorem visit_stmt_if_traverses_children (s : ASMGenerator) (test : Expr)
    (body orelse : List Stmt) (s1 s2 s3 : ASMGenerator)
    (h1 : visit_expr s test = .ok s1) (h2 : visit_stmts s1 body = .ok s2)
    (h3 : visit_stmts s2 orelse = .ok s3) :
    visit_stmt s (.ifStmt test body orelse) = .ok s3 := by
  rw [visit_stmt, h1]
  dsimp only
  rw [h2]
  dsimp only
  exact h3

/-- Witness for the amended C2 at a concrete if statement. -/
theorem visit_stmt_if_traverses_children_witness :
    visit_stmt (ASMGenerator.init "f" ["a"]) (.ifStmt (.name "a") [] []) =
      .ok ⟨"f", ["a"], ["    movq xmm0, rdi    ; Load argument a"],
        ⟨XMM_REGS.drop 1, [("a", "xmm0")]⟩, 0⟩ :=
  visit_stmt_if_traverses_children (ASMGenerator.init "f" ["a"]) (.name "a")
    [] []
    ⟨"f", ["a"], ["    movq xmm0, rdi    ; Load argument a"],
      ⟨XMM_REGS.drop 1, [("a", "xmm0")]⟩, 0⟩
    ⟨"f", ["a"], ["    movq xmm0, rdi    ; Load argument a"],
      ⟨XMM_REGS.drop 1, [("a", "xmm0")]⟩, 0⟩
    ⟨"f", ["a"], ["    movq xmm0, rdi    ; Load argument a"],
      ⟨XMM_REGS.drop 1, [("a", "xmm0")]⟩, 0⟩
    (by rfl) (by rfl) (by rfl)

/-- C3 counterexample: a parameter referenced twice has its
move-from-argument-slot load emitted twice in the compiled output. -/
theorem revisited_name_load_is_reemitted :
    (compile ⟨"f", ["a"], [.ret (.binop (.name "a") .add (.name "a"))]⟩).map
      (fun ls => ls.count "    movq xmm0, rdi    ; Load argument a") =
      .ok 2 := by
  rfl

/-- C3 (amended): revisiting a name whose register is already assigned
returns that same register, but the movq load instruction is appended
again on every visit; only the register assignment is idempotent, not
the instruction emission. -/
theorem visit_Name_revisit_reuses_register_but_reemits_load
    (s : ASMGenerator) (id r greg : String) (idx : Nat)
    (h1 : lookupKey s.reg_alloc.used_xmm id = some r)
    (h2 : s.args.findIdx? (fun a => a == id) = some idx)
    (h3 : GENERAL_REGS.get? idx = some greg) :
    visit_Name s id = .ok (r, appendLine s
      ("    movq " ++ r ++ ", " ++ greg ++ "    ; Load argument " ++ id)) := by
  rw [visit_Name, h2]
  dsimp only
  rw [h3]
  dsimp only
  rw [allocate_xmm, h1]
  dsimp only
  rfl

/-- Witness for the amended C3 at a concrete state with the name already
bound. -/
theorem visit_Name_revisit_witness :
    visit_Name ⟨"f", ["a"], [], ⟨XMM_REGS.drop 1, [("a", "xmm0")]⟩, 0⟩ "a" =
      .ok ("xmm0",
        appendLine ⟨"f", ["a"], [], ⟨XMM_REGS.drop 1, [("a", "xmm0")]⟩, 0⟩
          "    movq xmm0, rdi    ; Load argument a") :=
  visit_Name_revisit_reuses_register_but_reemits_load _ "a" "xmm0" "rdi" 0
    (by rfl) (by rfl) (by rfl)


/-- Keys built from the fixed const_ tag are injective in the rendered
value text. -/
lemma const_key_inj {x y : String} (h : "const_" ++ x = "const_" ++ y) :
    x = y := by
  have hd : "const_".data ++ x.data = "const_".data ++ y.data := by
    have := congrArg String.data h
    simpa [String.data_append] using this
  apply String.ext
  exact List.append_cancel_left hd

/-- C5 counterexample: the integer literals 9007199254740992 and
9007199254740993 canonicalize to the same 64-bit double bit pattern,
yet the two occurrences receive the distinct registers xmm0 and xmm1,
because registers are keyed by the literal text, not the bit pattern. -/
theorem equal_bit_pattern_literals_get_distinct_registers :
    double_bits 9007199254740992 = double_bits 9007199254740993
    ∧ (visit_Constant (ASMGenerator.init "f" []) 9007199254740992).map
        Prod.fst = .ok "xmm0"
    ∧ ((visit_Constant (ASMGenerator.init "f" []) 9007199254740992).bind
        (fun p => visit_Constant p.2 9007199254740993)).map Prod.fst =
          .ok "xmm1" := by
  refine ⟨by decide, rfl, rfl⟩

/-- C5 (amended): two literal occurrences lowered anywhere within one
compilation, with arbitrary lowering in between (any allocator
evolution along AllocReach, which the second and third conjuncts show
is all that expression and statement lowering ever does), share a
register exactly when their rendered texts, hence their allocator keys
const_ plus text, coincide; equal bit patterns with different texts get
distinct registers. -/
theorem visit_Constant_register_sharing_iff_same_text :
    (∀ (s : ASMGenerator) (v1 v2 : Int) (r1 r2 : String)
      (s1 s2 s3 : ASMGenerator), AllocatorInv s.reg_alloc →
      visit_Constant s v1 = .ok (r1, s1) →
      AllocReach s1.reg_alloc s2.reg_alloc →
      visit_Constant s2 v2 = .ok (r2, s3) →
      (r1 = r2 ↔ toString v1 = toString v2))
    ∧ (∀ (e : Expr) (s : ASMGenerator) (r : String) (s' : ASMGenerator),
      evaluate_node s e = .ok (r, s') → AllocReach s.reg_alloc s'.reg_alloc)
    ∧ (∀ (sts : List Stmt) (s s' : ASMGenerator),
      visit_stmts s sts = .ok s' → AllocReach s.reg_alloc s'.reg_alloc) := by
  refine ⟨?_, evaluate_node_reach, visit_stmts_reach⟩
  intro s v1 v2 r1 r2 s1 s2 s3 hInv h1 hmid h2
  unfold visit_Constant at h1 h2
  split at h1
  · cases h1
  · rename_i x1 xmm1 a1 ha1
    cases h1
    split at h2
    · cases h2
    · rename_i x2 xmm2 a2 ha2
      cases h2
      rw [allocate_pair_reach hInv ha1 hmid ha2]
      constructor
      · exact const_key_inj
      · intro ht
        rw [ht]

/-- Witness for the amended C5: the literals 1 and 2, separated by the
lowering of a name reference, get the registers xmm0 and xmm2, matching
their distinct texts. -/
theorem visit_Constant_register_sharing_witness :
    ("xmm0" = "xmm2" ↔ toString (1 : Int) = toString (2 : Int)) :=
  visit_Constant_register_sharing_iff_same_text.1
    (ASMGenerator.init "f" ["x"]) 1 2 "xmm0" "xmm2"
    ⟨"f", ["x"],
      ["    mov rax, 0x3ff0000000000000    ; Load constant 1",
       "    movq xmm0, rax"],
      ⟨XMM_REGS.drop 1, [("const_1", "xmm0")]⟩, 0⟩
    ⟨"f", ["x"],
      ["    mov rax, 0x3ff0000000000000    ; Load constant 1",
       "    movq xmm0, rax",
       "    movq xmm1, rdi    ; Load argument x"],
      ⟨XMM_REGS.drop 2, [("const_1", "xmm0"), ("x", "xmm1")]⟩, 0⟩
    ⟨"f", ["x"],
      ["    mov rax, 0x3ff0000000000000    ; Load constant 1",
       "    movq xmm0, rax",
       "    movq xmm1, rdi    ; Load argument x",
       "    mov rax, 0x4000000000000000    ; Load constant 2",
       "    movq xmm2, rax"],
      ⟨XMM_REGS.drop 3,
        [("const_1", "xmm0"), ("x", "xmm1"), ("const_2", "xmm2")]⟩, 0⟩
    (by decide) (by rfl)
    (.step "x" "xmm1" (by rfl) (.refl _))
    (by rfl)


/-- Compiled output of a function whose body is one counted loop over
range of the literal 3 around a return of the parameter. -/
def rangeLoopLines : List String :=
  ["section .text", "global f", "f:", "    ; Function prologue",
   "    push rbp", "    mov rbp, rsp",
   "    ; Assume float args in rdi, rsi, rdx, rcx, r8, r9",
   "    ; Begin loop 1", "    mov rcx, 3    ; loop counter", "loop_1:",
   "    movq xmm0, rdi    ; Load argument a", "    dec rcx",
   "    jnz loop_1", "    ; End loop 1", "    ; Function epilogue",
   "    pop rbp", "    ret"]

/-- C4 counterexample: in the compiled output of a range-3 loop the
counter initialization stands at position 8, before the loop label at
position 9, while the claim requires the label first. -/
theorem loop_counter_init_emitted_before_label :
    compile ⟨"f", ["a"],
      [.forLoop "i" (.call "range" [.const 3]) [.ret (.name "a")]]⟩ =
      .ok rangeLoopLines
    ∧ rangeLoopLines.findIdx?
        (fun l => l == "    mov rcx, 3    ; loop counter") = some 8
    ∧ rangeLoopLines.findIdx? (fun l => l == "loop_1:") = some 9 := by
  exact ⟨rfl, rfl, rfl⟩

/-- C4 (amended): a counted loop over a range call lowers, exactly once
per occurrence, to the begin-loop comment, the counter initialization
from the trip-count source (a parameter name, a literal, or the
fallback), the label, the lowered body, the decrement, the conditional
branch back to the label and the end-loop comment, in that order (the
counter initialization precedes the label); and the loop ids assigned
during any successful lowering of a statement list are pairwise
distinct, covering sibling, separated, nested and branch-split loops,
each loop consuming the id loop_count + 1 of the state where it
starts. -/
theorem visit_For_range_emission_order_and_unique_ids :
    (∀ (s0 : ASMGenerator) (target : String) (range_arg : Expr)
      (rest : List Expr) (body : List Stmt) (sb : ASMGenerator),
      visit_stmts (loopPreamble s0 range_arg) body = .ok sb →
      visit_For s0 target (.call "range" (range_arg :: rest)) body =
        .ok (appendLine (appendLine (appendLine sb "    dec rcx")
          ("    jnz loop_" ++ toString (s0.loop_count + 1)))
          ("    ; End loop " ++ toString (s0.loop_count + 1))))
    ∧ (∀ (s : ASMGenerator) (sts : List Stmt) (s' : ASMGenerator),
      visit_stmts s sts = .ok s' → (loopIds_stmts s sts).Nodup)
    ∧ (∀ (s : ASMGenerator) (target : String) (iter : Expr)
      (body : List Stmt),
      (loopIds_stmt s (.forLoop target iter body)).head? =
        some (s.loop_count + 1)) := by
  refine ⟨?_, fun s sts s' h => loopIds_stmts_nodup sts s s' h, ?_⟩
  · intro s0 target range_arg rest body sb h
    rw [visit_For.eq_def]
    dsimp only
    rw [if_pos (show (("range" == "range") = true) from rfl)]
    rw [h]
  · intro s target iter body
    cases iter with
    | name id => rfl
    | const v => rfl
    | binop l op r => rfl
    | call f rargs =>
      rw [loopIds_stmt.eq_def]
      dsimp only
      by_cases hf : (f == "range") = true
      · rw [if_pos hf]
        cases rargs with
        | nil => rfl
        | cons ra rest => rfl
      · rw [if_neg hf]
        rfl

/-- Witness for the amended C4: the concrete emission order of a loop
over a parameter-name trip count with an empty body, and the distinct
ids of a nested pair of loops. -/
theorem visit_For_range_emission_witness :
    ((visit_For (ASMGenerator.init "f" []) "i" (.call "range" [.name "n"])
      []).map (fun g => g.lines) =
      .ok ["    ; Begin loop 1", "    mov rcx, n    ; loop counter",
        "loop_1:", "    dec rcx", "    jnz loop_1", "    ; End loop 1"])
    ∧ (loopIds_stmts (ASMGenerator.init "f" [])
        [.forLoop "i" (.call "range" [.const 2])
          [.forLoop "j" (.call "range" [.const 2]) []]]).Nodup
    ∧ (loopIds_stmt (ASMGenerator.init "f" [])
        (.forLoop "i" (.call "range" [.name "n"]) [])).head? = some 1 := by
  refine ⟨?_, ?_, ?_⟩
  · rw [visit_For_range_emission_order_and_unique_ids.1
      (ASMGenerator.init "f" []) "i" (.name "n") [] []
      (loopPreamble (ASMGenerator.init "f" []) (.name "n")) rfl]
    rfl
  · exact visit_For_range_emission_order_and_unique_ids.2.1
      (ASMGenerator.init "f" [])
      [.forLoop "i" (.call "range" [.const 2])
        [.forLoop "j" (.call "range" [.const 2]) []]]
      ⟨"f", [],
        ["    ; Begin loop 1", "    mov rcx, 2    ; loop counter",
         "loop_1:", "    ; Begin loop 2", "    mov rcx, 2    ; loop counter",
         "loop_2:", "    dec rcx", "    jnz loop_2", "    ; End loop 2",
         "    dec rcx", "    jnz loop_1", "    ; End loop 1"],
        RegisterAllocator.init, 2⟩
      rfl
  · exact visit_For_range_emission_order_and_unique_ids.2.2
      (ASMGenerator.init "f" []) "i" (.call "range" [.name "n"]) []


end Caesium
